import Mathlib

/-!
Shallow embedding of the crawl frontier and content-classification engine of
`src/app.py` (EnhancedFinancialDataExtractor), together with theorems settling
the specification claims about it.

External effects (network fetches, file writes, PDF text extraction, clock)
are modelled as explicit oracle parameters; everything else is translated
directly from the source.
-/

namespace SUT

/-! Python string containment (`pat in s`) on character lists. -/

/-- Boolean test that `p` is a prefix of `s` (helper for substring search). -/
def listPrefixB : List Char → List Char → Bool
  | [], _ => true
  | _ :: _, [] => false
  | p :: ps, c :: cs => p == c && listPrefixB ps cs

/-- Boolean test that `pat` occurs contiguously inside `s` (helper). -/
def listInfixB (pat : List Char) : List Char → Bool
  | [] => pat.isEmpty
  | c :: cs => listPrefixB pat (c :: cs) || listInfixB pat cs

/-- Python `pat in s` for strings: contiguous substring containment. -/
def strContains (s pat : String) : Bool :=
  listInfixB pat.data s.data

/-- Python `s.lower()`: character-wise lower-casing. -/
def strToLower (s : String) : String :=
  String.mk (s.data.map Char.toLower)

/-- Python `s.startswith(pre)`. -/
def strStartsWith (s pre : String) : Bool :=
  listPrefixB pre.data s.data

/-- Python `s.endswith(suf)`. -/
def strEndsWith (s suf : String) : Bool :=
  listPrefixB suf.data.reverse s.data.reverse


/-! Regular-expression engine modelling the fragment of Python `re` used by
the financial-content patterns of the source: literals, the classes `\d` and
`\s`, the zero-width word boundary `\b`, concatenation, greedy `*`, `+`, `?`,
bounded repetition, all scanned case-insensitively with `re.findall`. -/

/-- Abstract syntax of the regular-expression fragment used by the source. -/
inductive RE where
  | eps
  | lit (c : Char)
  | digit
  | space
  | wordB
  | seq (a b : RE)
  | star (a : RE)
  | opt (a : RE)
deriving Repr

/-- Sequence of a list of regexes. -/
def rseq (l : List RE) : RE := l.foldr RE.seq RE.eps

/-- Literal (case-insensitive) word as a regex. -/
def rstr (s : String) : RE := rseq (s.data.map RE.lit)

/-- Greedy `+` as one copy followed by a star. -/
def rplus (r : RE) : RE := RE.seq r (RE.star r)

/-- Exact repetition, Python `r{n}`. -/
def rrep (r : RE) (n : Nat) : RE := rseq (List.replicate n r)

/-- Python `\w` class membership: alphanumeric or underscore. -/
def isWordC (c : Char) : Bool := c.isAlphanum || c == '_'

/-- Python `\s` class membership on ASCII text. -/
def isSpaceC (c : Char) : Bool :=
  c == ' ' || c == '\t' || c == '\n' || c == '\r' || c == '\x0b' || c == '\x0c'

/-- Python `s.strip()`: drop leading and trailing whitespace. -/
def strTrim (s : String) : String :=
  String.mk ((s.data.dropWhile isSpaceC).reverse.dropWhile isSpaceC).reverse

/-- Word boundary test: the previous character (if any) and the next
character (if any) differ in `\w`-membership. -/
def boundary (prev : Option Char) (s : List Char) : Bool :=
  let l := match prev with | none => false | some c => isWordC c
  let r := match s with | [] => false | c :: _ => isWordC c
  l != r

/-- Character preceding the current position after consuming `c`. -/
def lastPrev (prev : Option Char) (c : List Char) : Option Char :=
  match c.getLast? with
  | some x => some x
  | none => prev

/-- Greedy iteration of a star over a sub-matcher `f`: all ways to match
zero or more copies in greedy preference order (longer first), iterating only
on nonempty consumption; `fuel` bounds the iteration count and is set to the
string length plus one by the caller, which nonempty consumption stays
within. -/
def starAll (f : Option Char → List Char → List (List Char × List Char)) :
    Nat → Option Char → List Char → List (List Char × List Char)
  | 0, _, s => [([], s)]
  | fuel + 1, prev, s =>
    (((f prev s).filter fun p => !p.1.isEmpty).flatMap fun p =>
      (starAll f fuel (lastPrev prev p.1) p.2).map fun q =>
        (p.1 ++ q.1, q.2)) ++ [([], s)]

/-- All ways `r` can match a prefix of `s`, as (consumed, rest) pairs listed
in the preference order of a greedy backtracking matcher; `prev` is the
character just before the current position (for `\b`). -/
def mAll (r : RE) (prev : Option Char) (s : List Char) :
    List (List Char × List Char) :=
  match r with
  | .eps => [([], s)]
  | .lit c =>
    match s with
    | [] => []
    | x :: xs => if x.toLower == c.toLower then [([x], xs)] else []
  | .digit =>
    match s with
    | [] => []
    | x :: xs => if x.isDigit then [([x], xs)] else []
  | .space =>
    match s with
    | [] => []
    | x :: xs => if isSpaceC x then [([x], xs)] else []
  | .wordB => if boundary prev s then [([], s)] else []
  | .seq a b =>
    (mAll a prev s).flatMap fun p =>
      (mAll b (lastPrev prev p.1) p.2).map fun q => (p.1 ++ q.1, q.2)
  | .opt a => (mAll a prev s) ++ [([], s)]
  | .star a => starAll (fun pr ss => mAll a pr ss) (s.length + 1) prev s

/-- Scan of `re.findall`: at each position try the greedy match; on success
record it and resume after it (advancing one character on an empty match),
otherwise advance one character.  `fuel` only bounds the number of scan steps
and is set so that it never runs out on the calls made here. -/
def findAllGo (r : RE) : Nat → Option Char → List Char → List String
  | 0, _, _ => []
  | _ + 1, prev, [] =>
    match (mAll r prev []).head? with
    | some p => [String.mk p.1]
    | none => []
  | f + 1, prev, x :: xs =>
    match (mAll r prev (x :: xs)).head? with
    | none => findAllGo r f (some x) xs
    | some p =>
      if p.1.isEmpty then String.mk p.1 :: findAllGo r f (some x) xs
      else String.mk p.1 :: findAllGo r f (lastPrev prev p.1) p.2

/-- Python `re.findall(pattern, text, re.IGNORECASE)` for the modelled
fragment: the list of non-overlapping leftmost greedy matches. -/
def findAll (r : RE) (s : String) : List String :=
  findAllGo r (s.data.length + 1) none s.data

/-! Pattern Registry: the static keyword and regex configuration of the
source (SKIP_PATTERNS, FINANCIAL_LINK_KEYWORDS, FINANCIAL_KEYWORDS). -/

/-- Generic pages to skip (source list SKIP_PATTERNS). -/
def SKIP_PATTERNS : List String :=
  ["about", "contact", "privacy", "terms", "sitemap", "search", "accessibility",
   "translate", "home", "index", "faq", "help", "support", "blog",
   "careers", "jobs", "staff", "directory", "media", "press", "calendar",
   "events", "gallery", "photo", "video", "social", "facebook", "twitter",
   "instagram", "linkedin", "youtube"]

/-- Financial-related keywords used to prioritize links. -/
def FINANCIAL_LINK_KEYWORDS : List String :=
  ["tax", "fee", "rate", "cost", "price", "budget", "financial", "finance",
   "revenue", "assessment", "penalty", "payment", "billing", "invoice",
   "permit", "license", "registration", "business", "property", "sales",
   "income", "audit", "treasury", "accounting", "fiscal", "economic"]

/-- Financial-content regular expressions of the source (FINANCIAL_KEYWORDS),
each transcribed into the regex fragment `RE` in source order. -/
def FINANCIAL_KEYWORDS : List RE :=
  [rseq [.wordB, rplus .digit, .opt (.lit '.'), .star .digit, .star .space, .lit '%'],
   rseq [.wordB, rplus .digit, .lit '.', rplus .digit, .star .space, rstr "percent"],
   rseq [.wordB, rstr "rate", .star .space, rstr "of", .star .space, rplus .digit],
   rseq [.wordB, rstr "tax", .star .space, rstr "rate", .star .space, rplus .digit],
   rseq [.wordB, rstr "interest", .star .space, rstr "rate", .star .space, rplus .digit],
   rseq [.wordB, rplus .digit, .star .space, rstr "basis", .star .space, rstr "points"],
   rseq [.lit '$', rplus .digit, .star (rseq [.lit ',', rrep .digit 3]),
         .opt (rseq [.lit '.', rrep .digit 2])],
   rseq [.lit '$', rplus .digit, .star .space, rstr "million"],
   rseq [.lit '$', rplus .digit, .star .space, rstr "billion"],
   rseq [.wordB, rstr "cost", .star .space, rstr "of", .star .space, .opt (.lit '$'), rplus .digit],
   rseq [.wordB, rstr "fee", .star .space, rstr "of", .star .space, .opt (.lit '$'), rplus .digit],
   rseq [.wordB, rstr "charge", .star .space, .opt (.lit '$'), rplus .digit],
   rseq [.wordB, rstr "price", .star .space, .opt (.lit '$'), rplus .digit],
   rseq [.wordB, rstr "amount", .star .space, .opt (.lit '$'), rplus .digit],
   rseq [.wordB, rstr "payment", .star .space, .opt (.lit '$'), rplus .digit],
   rseq [.wordB, rstr "tax", .star .space, .opt (.lit '$'), rplus .digit],
   rseq [.wordB, rstr "duty", .star .space, .opt (.lit '$'), rplus .digit],
   rseq [.wordB, rstr "penalty", .star .space, .opt (.lit '$'), rplus .digit],
   rseq [.wordB, rstr "fine", .star .space, .opt (.lit '$'), rplus .digit],
   rseq [.wordB, rstr "taxable", .star .space, rstr "income"],
   rseq [.wordB, rstr "tax", .star .space, rstr "liability"],
   rseq [.wordB, rstr "tax", .star .space, rstr "assessment"],
   rseq [.wordB, rstr "fee", .star .space, rstr "schedule"],
   rseq [.wordB, rstr "rate", .star .space, rstr "schedule"],
   rseq [.wordB, rstr "price", .star .space, rstr "list"],
   rseq [.wordB, rstr "cost", .star .space, rstr "structure"],
   rseq [.wordB, rstr "license", .star .space, rstr "fee", .star .space, .opt (.lit '$'), rplus .digit],
   rseq [.wordB, rstr "registration", .star .space, rstr "fee", .star .space, .opt (.lit '$'), rplus .digit],
   rseq [.wordB, rstr "processing", .star .space, rstr "fee", .star .space, .opt (.lit '$'), rplus .digit],
   rseq [.wordB, rstr "determined", .star .space, rstr "by"],
   rseq [.wordB, rstr "tax", .star .space, rstr "Assessment"]]

/-- Content Classifier (source method contains_financial_data): scan the text
against every financial regex, keeping up to the first 3 matches of each, in
pattern order. -/
def contains_financial_data (text : String) : Bool × List String :=
  if text = "" then (false, [])
  else
    let found := FINANCIAL_KEYWORDS.foldl
      (fun acc p => acc ++ (findAll p text).take 3) []
    (found.length > 0, found)

/-! URL helpers modelling `urllib.parse.urlparse` on http(s) URLs. -/

/-- Characters after the first scheme separator "://", when present. -/
def afterScheme : List Char → Option (List Char)
  | [] => none
  | c :: cs =>
    if listPrefixB (':' :: '/' :: '/' :: []) (c :: cs) then some (cs.drop 2)
    else afterScheme cs

/-- Netloc (host) of a URL: the part between the scheme separator and the
first of a slash, question mark or hash; empty when there is no scheme
separator, as in urlparse. -/
def urlHost (url : String) : String :=
  match afterScheme url.data with
  | some rest =>
    String.mk (rest.takeWhile fun c => c ≠ '/' && c ≠ '?' && c ≠ '#')
  | none => ""

/-- Path component of a URL: what follows the host, up to a query or
fragment marker. -/
def urlPath (url : String) : String :=
  match afterScheme url.data with
  | some rest =>
    String.mk ((rest.dropWhile fun c => c ≠ '/' && c ≠ '?' && c ≠ '#').takeWhile
      fun c => c ≠ '?' && c ≠ '#')
  | none => String.mk (url.data.takeWhile fun c => c ≠ '?' && c ≠ '#')

/-- Split of a character list on slashes. -/
def splitSlash : List Char → List (List Char)
  | [] => [[]]
  | c :: cs =>
    match splitSlash cs with
    | [] => [[]]
    | h :: t => if c = '/' then [] :: h :: t else (c :: h) :: t

/-- Final name of the URL path, as `Path(urlparse(url).path).name`: the last
nonempty slash-separated component. -/
def urlPathName (url : String) : String :=
  String.mk (((splitSlash (urlPath url).data).filter fun c => !c.isEmpty).getLastD [])

/-- URL Classifier (source method is_generic_page): any skip keyword occurs
in the lower-cased URL, or slash-prefixed in the lower-cased path. -/
def is_generic_page (url : String) : Bool :=
  SKIP_PATTERNS.any fun pat =>
    strContains (strToLower url) pat ||
      strContains (strToLower (urlPath url)) ("/" ++ pat)

/-- URL Classifier (source method is_pdf_url). -/
def is_pdf_url (url : String) : Bool :=
  strEndsWith (strToLower url) ".pdf" || strContains (strToLower url) "pdf"

/-- Document extensions recognized by is_document_url. -/
def doc_extensions : List String :=
  [".pdf", ".doc", ".docx", ".xls", ".xlsx", ".ppt", ".pptx", ".txt"]

/-- URL Classifier (source method is_document_url): some document extension
occurs as a substring of the lower-cased URL. -/
def is_document_url (url : String) : Bool :=
  doc_extensions.any fun ext => strContains (strToLower url) ext

/-! Link Extractor and Prioritizer (source method extract_links). -/

/-- One outbound link of a page: raw href and anchor text. -/
structure LinkData where
  url : String
  text : String
deriving Repr, DecidableEq

/-- Resolution of a raw link to an absolute URL, in the branch order of the
source: root-relative, already-absolute (kept only when the crawl domain is a
substring of the link), anchor and non-web schemes dropped, otherwise joined
against the domain root.  Links not starting with a slash have nothing for
lstrip to remove, so the last branch uses the link unchanged. -/
def resolveLink (domain link : String) : Option String :=
  if strStartsWith link "/" then some ("https://" ++ domain ++ link)
  else if strStartsWith link "http" then
    if strContains link domain then some link else none
  else if strStartsWith link "#" || strStartsWith link "mailto:" ||
      strStartsWith link "tel:" then none
  else some ("https://" ++ domain ++ "/" ++ link)

/-- Anchor and query-string stripping, `full_url.split r#"#"# [0].split r#"?"# [0]`. -/
def cleanUrl (url : String) : String :=
  String.mk ((url.data.takeWhile fun c => c ≠ '#').takeWhile fun c => c ≠ '?')

/-- Tier of one candidate link inside extract_links. -/
def financialLinkHit (clean_url link_text : String) : Bool :=
  FINANCIAL_LINK_KEYWORDS.any fun kw =>
    strContains (strToLower clean_url) kw || strContains (strToLower link_text) kw

/-- One pass of the categorization loop of extract_links, accumulating the
document, financial and other tiers in input order. -/
def categorizeLinks (domain : String) (visited : List String) :
    List LinkData → List String × List String × List String
  | [] => ([], [], [])
  | l :: ls =>
    let (d, f, o) := categorizeLinks domain visited ls
    if l.url = "" then (d, f, o)
    else
      match resolveLink domain l.url with
      | none => (d, f, o)
      | some full_url =>
        let clean_url := cleanUrl full_url
        if clean_url ∈ visited || is_generic_page clean_url then (d, f, o)
        else if is_document_url clean_url then (clean_url :: d, f, o)
        else if financialLinkHit clean_url l.text then (d, clean_url :: f, o)
        else (d, f, clean_url :: o)

/-- Duplicate removal preserving first occurrences (the unique_links loop). -/
def dedupeGo (acc : List String) : List String → List String
  | [] => acc
  | x :: xs => if x ∈ acc then dedupeGo acc xs else dedupeGo (acc ++ [x]) xs

/-- The cap on Other-tier links (source max_other_links). -/
def max_other_links : Nat := 5

/-- Link Extractor and Prioritizer: categorize every raw link, concatenate
document, financial and capped other tiers, and drop duplicates preserving
order. -/
def extract_links (domain : String) (visited : List String)
    (links : List LinkData) : List String :=
  let (d, f, o) := categorizeLinks domain visited links
  dedupeGo [] (d ++ f ++ o.take max_other_links)

/-! Fetch Dispatcher for PDFs (source method download_and_process_pdf),
with the network and the PDF text extractor as oracles. -/

/-- Outcome of one network attempt of the PDF retry loop. -/
inductive AttemptOutcome where
  | timeout
  | connError (msg : String)
  | ok (contentType : String) (body : List Nat)
deriving Repr

/-- Result record produced by a fetch (the Python result dict, with the keys
that vary by case as options). -/
structure PageResult where
  url : String
  title : String
  content : String
  links : List LinkData
  status : String
  type : String
  error : Option String
deriving Repr, DecidableEq

/-- Failed-PDF result dict. -/
def failedPdf (url err : String) : PageResult :=
  { url := url, title := "", content := "", links := [], status := "FAILED",
    type := "PDF", error := some err }

/-- The retry loop of download_and_process_pdf over the remaining attempt
indices (the source iterates attempt = 0, 1, 2 with max_retries = 3): on a
response, validate the content type; on timeout or connection error, fail
terminally on the last attempt and otherwise sleep 2 ^ attempt and retry.
Returns the loop outcome together with the number of attempts made and the
list of backoff delays slept. -/
def pdfFetchGo (url : String) (att : Nat → AttemptOutcome) :
    List Nat → Except String (String × List Nat) × Nat × List Nat
  | [] => (.error "", 0, [])
  | i :: rest =>
    match att i with
    | .ok ct body =>
      if !strContains (strToLower ct) "pdf" && !strEndsWith (strToLower url) ".pdf" then
        (.error "Not a valid PDF document", 1, [])
      else (.ok (ct, body), 1, [])
    | .timeout =>
      if rest.isEmpty then (.error "Timeout after multiple attempts", 1, [])
      else
        let (r, n, ds) := pdfFetchGo url att rest
        (r, n + 1, 2 ^ i :: ds)
    | .connError msg =>
      if rest.isEmpty then
        (.error ("Connection failed: " ++ String.mk (msg.data.take 100)), 1, [])
      else
        let (r, n, ds) := pdfFetchGo url att rest
        (r, n + 1, 2 ^ i :: ds)

/-- Per-page extraction outcome handed back by the PDF reader: `none` when
extracting that page raised, otherwise the (possibly empty) page text. -/
abbrev PdfPages := List (Option String)

/-- Concatenation of the per-page texts with page markers, skipping pages
whose extraction raised or returned empty text (the page loop). -/
def pdfText (pages : PdfPages) : String :=
  (pages.enum.map fun p =>
    match p.2 with
    | some t =>
      if t = "" then ""
      else "\n--- PAGE " ++ toString (p.1 + 1) ++ " ---\n" ++ t ++ "\n"
    | none => "").foldl (· ++ ·) ""

/-- Metadata note produced when a PDF yields no extractable text. -/
def pdfNoTextNote (url : String) (size pageCount : Nat) (ct now : String) : String :=
  "PDF Document Information:\nURL: " ++ url ++ "\nFile Size: " ++ toString size ++
  " bytes\nPages: " ++ toString pageCount ++ "\nContent Type: " ++ ct ++
  "\nDownload Date: " ++ now ++
  "\n\nNote: This PDF exists but no text could be extracted. It may contain images, scanned text, or be password protected.\nThis could still be a valuable financial document that should be reviewed manually.\n"

/-- Error note produced when PDF processing raises. -/
def pdfErrorNote (url : String) (size : Nat) (err now : String) : String :=
  "PDF Processing Error:\nURL: " ++ url ++ "\nFile Size: " ++ toString size ++
  " bytes\nError: " ++ err ++ "\nDownload Date: " ++ now ++
  "\n\nNote: PDF was downloaded but could not be processed. This might be:\n- A corrupted PDF file\n- A password-protected PDF\n- A PDF with complex formatting\n- A scanned document without OCR text\n\nManual review may be required for this financial document.\n"

/-- Full run record of download_and_process_pdf: the produced result plus
the observable retry behaviour (attempt count and backoff delays). -/
structure PdfRunLog where
  result : PageResult
  attemptsMade : Nat
  delays : List Nat
deriving Repr

/-- Fetch Dispatcher for PDFs: retry loop, content-type validation, then the
three-way extraction outcome (text, no text, extractor raised), the last two
degrading gracefully to SUCCESS results with synthetic content.  `extract` is
the PDF text-extraction oracle (`.error` when opening the document raises,
page-level outcomes otherwise) and `now` the formatted current time. -/
def download_and_process_pdf (url : String) (att : Nat → AttemptOutcome)
    (extract : List Nat → Except String PdfPages) (now : String) : PdfRunLog :=
  match pdfFetchGo url att [0, 1, 2] with
  | (.error e, n, ds) => { result := failedPdf url e, attemptsMade := n, delays := ds }
  | (.ok (ct, body), n, ds) =>
    match extract body with
    | .error msg =>
      { result := { url := url,
                    title := "PDF Document (Processing Error) - " ++ urlPathName url,
                    content := pdfErrorNote url body.length msg now,
                    links := [], status := "SUCCESS", type := "PDF", error := none },
        attemptsMade := n, delays := ds }
    | .ok pages =>
      let txt := pdfText pages
      if strTrim txt ≠ "" then
        { result := { url := url, title := "PDF Document - " ++ urlPathName url,
                      content := txt, links := [], status := "SUCCESS",
                      type := "PDF", error := none },
          attemptsMade := n, delays := ds }
      else
        { result := { url := url,
                      title := "PDF Document (No Text) - " ++ urlPathName url,
                      content := pdfNoTextNote url body.length pages.length ct now,
                      links := [], status := "SUCCESS", type := "PDF", error := none },
          attemptsMade := n, delays := ds }

/-! Orchestrator and Frontier (source method recursive_extract), with the
page fetch and the file write as oracles. -/

/-- Record appended to financial_pages when a relevant page is persisted. -/
structure FinPage where
  url : String
  title : String
  filepath : String
  patterns : List String
  depth : Nat
  type : String
deriving Repr, DecidableEq

/-- Mutable state of one crawl run: the frontier deque of (url, depth)
pairs, the visited URLs in insertion order, the page counter and the three
result lists. -/
structure CrawlState where
  frontier : List (String × Nat)
  visited : List String
  pagesProcessed : Nat
  financialPages : List FinPage
  failedPages : List String
  skippedPages : List String
deriving Repr

/-- External effects of the crawl loop: `scrape` is the per-URL fetch
(scrape_page) and `save` the per-URL file write (save_financial_content,
returning the path written or none on a write failure). -/
structure CrawlOracle where
  scrape : String → PageResult
  save : String → Option String

/-- The enqueue loop over freshly extracted links: append (link, depth+1)
only when the link is neither visited nor already queued, checking against
the queue as it grows. -/
def enqueueLinks (visited : List String) (d1 : Nat) (queue : List (String × Nat)) :
    List String → List (String × Nat)
  | [] => queue
  | l :: ls =>
    if l ∉ visited ∧ l ∉ queue.map Prod.fst then
      enqueueLinks visited d1 (queue ++ [(l, d1)]) ls
    else enqueueLinks visited d1 queue ls

/-- One iteration of the crawl loop body on a state whose frontier is
nonempty: pop the front entry; discard it when visited or too deep; record
generic pages as skipped; otherwise mark visited, count the page, fetch,
classify, persist when relevant, and enqueue prioritized links at depth + 1
when below the depth bound.  On a fetch failure the URL joins failed_pages. -/
def crawlStep (oracle : CrawlOracle) (domain : String) (max_depth : Nat)
    (s : CrawlState) : CrawlState :=
  match s.frontier with
  | [] => s
  | (current_url, depth) :: rest =>
    if current_url ∈ s.visited ∨ depth > max_depth then
      { s with frontier := rest }
    else if is_generic_page current_url then
      { s with frontier := rest, skippedPages := s.skippedPages ++ [current_url] }
    else
      let visited := s.visited ++ [current_url]
      let pages := s.pagesProcessed + 1
      let page_data := oracle.scrape current_url
      if page_data.status = "SUCCESS" then
        let cls := contains_financial_data page_data.content
        let financialPages :=
          if cls.1 then
            match oracle.save current_url with
            | some filepath =>
              s.financialPages ++
                [{ url := current_url, title := page_data.title,
                   filepath := filepath, patterns := cls.2.take 10,
                   depth := depth, type := page_data.type }]
            | none => s.financialPages
          else s.financialPages
        let frontier :=
          if depth < max_depth then
            enqueueLinks visited (depth + 1) rest
              (extract_links domain visited page_data.links)
          else rest
        { frontier := frontier, visited := visited, pagesProcessed := pages,
          financialPages := financialPages, failedPages := s.failedPages,
          skippedPages := s.skippedPages }
      else
        { s with frontier := rest, visited := visited, pagesProcessed := pages,
                 failedPages := s.failedPages ++ [current_url] }

/-- Initial crawl state: the frontier holds the start URL at depth 0 and
everything else is empty. -/
def initState (start_url : String) : CrawlState :=
  { frontier := [(start_url, 0)], visited := [], pagesProcessed := 0,
    financialPages := [], failedPages := [], skippedPages := [] }

/-- The crawl loop, driven by fuel: while the frontier is nonempty and the
page budget is not exhausted, run one loop body.  Returns the final state
together with the trace of dequeued (url, depth) frontier entries in dequeue
order. -/
def crawlRun (oracle : CrawlOracle) (domain : String) (max_depth max_pages : Nat) :
    Nat → CrawlState → CrawlState × List (String × Nat)
  | 0, s => (s, [])
  | fuel + 1, s =>
    match s.frontier with
    | [] => (s, [])
    | e :: _ =>
      if s.pagesProcessed < max_pages then
        let out := crawlRun oracle domain max_depth max_pages fuel
          (crawlStep oracle domain max_depth s)
        (out.1, e :: out.2)
      else (s, [])

/-! Invariant predicates used by the crawl theorems, and concrete fixtures
used to witness the hypothesis-bearing theorems. -/

/-- De-duplication invariant of a crawl state: visited URLs are pairwise
distinct, frontier URLs are pairwise distinct, and no frontier URL is
already visited. -/
def StateOK (s : CrawlState) : Prop :=
  s.visited.Nodup ∧ (s.frontier.map Prod.fst).Nodup ∧
    ∀ e ∈ s.frontier, e.1 ∉ s.visited

/-- Breadth-first shape of a frontier depth list: sorted, with every later
entry at most one deeper than the front entry. -/
def SpreadOK : List Nat → Prop
  | [] => True
  | d :: ds => List.Chain' (· ≤ ·) (d :: ds) ∧ ∀ x ∈ ds, x ≤ d + 1

/-- Depth bound invariant of a crawl state. -/
def DepthOK (max_depth : Nat) (s : CrawlState) : Prop :=
  ∀ e ∈ s.frontier, e.2 ≤ max_depth

/-- Concrete two-page site oracle used by witnesses. -/
def testOracle : CrawlOracle :=
  { scrape := fun u =>
      if u = "https://x.gov/start" then
        { url := u, title := "t", content := "fee of $10",
          links := [⟨"/tax1", ""⟩, ⟨"/p1", ""⟩], status := "SUCCESS",
          type := "WEBPAGE", error := none }
      else if u = "https://x.gov/tax1" then
        { url := u, title := "t", content := "nothing",
          links := [⟨"/start", ""⟩, ⟨"/p2", ""⟩], status := "SUCCESS",
          type := "WEBPAGE", error := none }
      else
        { url := u, title := "", content := "", links := [],
          status := "FAILED", type := "WEBPAGE", error := some "boom" },
    save := fun _ => some "out/file.txt" }

/-- Oracle whose file writes always fail, used to witness the
persist-failure claim. -/
def saveFailOracle : CrawlOracle :=
  { scrape := fun u =>
      { url := u, title := "t", content := "fee of $10", links := [],
        status := "SUCCESS", type := "WEBPAGE", error := none },
    save := fun _ => none }

/-- Raw links of the link-tiering witness page: 2 document links, 3
financial-keyword links and 20 other links, all distinct. -/
def tierLinks : List LinkData :=
  [⟨"/a.pdf", ""⟩, ⟨"/b.doc", ""⟩, ⟨"/tax1", ""⟩, ⟨"/fee2", ""⟩, ⟨"/rate3", ""⟩,
   ⟨"/p1", ""⟩, ⟨"/p2", ""⟩, ⟨"/p3", ""⟩, ⟨"/p4", ""⟩, ⟨"/p5", ""⟩,
   ⟨"/p6", ""⟩, ⟨"/p7", ""⟩, ⟨"/p8", ""⟩, ⟨"/p9", ""⟩, ⟨"/p10", ""⟩,
   ⟨"/p11", ""⟩, ⟨"/p12", ""⟩, ⟨"/p13", ""⟩, ⟨"/p14", ""⟩, ⟨"/p15", ""⟩,
   ⟨"/p16", ""⟩, ⟨"/p17", ""⟩, ⟨"/p18", ""⟩, ⟨"/p19", ""⟩, ⟨"/p20", ""⟩]

/-- Document tier of the link-tiering witness page. -/
def tierDocs : List String := ["https://x.gov/a.pdf", "https://x.gov/b.doc"]

/-- Financial tier of the link-tiering witness page. -/
def tierFins : List String :=
  ["https://x.gov/tax1", "https://x.gov/fee2", "https://x.gov/rate3"]

/-- Other tier of the link-tiering witness page. -/
def tierOthers : List String :=
  (List.range 20).map fun i => "https://x.gov/p" ++ toString (i + 1)

/-! Helper lemmas about the definitions above. -/

theorem dedupeGo_eq (l acc : List String) (h : (acc ++ l).Nodup) :
    dedupeGo acc l = acc ++ l := by
  induction l generalizing acc with
  | nil => simp [dedupeGo]
  | cons x xs ih =>
    have hx : x ∉ acc := by
      have hd := (List.nodup_append.mp h).2.2
      exact fun hmem => hd hmem (List.mem_cons_self x xs)
    have h' : ((acc ++ [x]) ++ xs).Nodup := by
      simpa [List.append_assoc] using h
    rw [dedupeGo, if_neg hx, ih (acc ++ [x]) h']
    simp

theorem enqueueLinks_mem (visited : List String) (d1 : Nat)
    (links : List String) (queue : List (String × Nat)) :
    ∀ e ∈ enqueueLinks visited d1 queue links,
      e ∈ queue ∨ (e.2 = d1 ∧ e.1 ∉ visited) := by
  induction links generalizing queue with
  | nil => exact fun e he => .inl (by simpa [enqueueLinks] using he)
  | cons l ls ih =>
    intro e he
    rw [enqueueLinks] at he
    split at he
    case isTrue hc =>
      rcases ih (queue ++ [(l, d1)]) e he with hq | hr
      · rcases List.mem_append.mp hq with hq | hq
        · exact .inl hq
        · simp only [List.mem_singleton] at hq
          subst hq
          exact .inr ⟨rfl, hc.1⟩
      · exact .inr hr
    case isFalse => exact ih queue e he

theorem enqueueLinks_nodup (visited : List String) (d1 : Nat)
    (links : List String) (queue : List (String × Nat))
    (h : (queue.map Prod.fst).Nodup) :
    ((enqueueLinks visited d1 queue links).map Prod.fst).Nodup := by
  induction links generalizing queue with
  | nil => simpa [enqueueLinks] using h
  | cons l ls ih =>
    rw [enqueueLinks]
    split
    case isTrue hc =>
      refine ih (queue ++ [(l, d1)]) ?_
      rw [List.map_append]
      refine List.Nodup.append h (List.nodup_singleton l) ?_
      intro a ha hb
      simp only [List.map_cons, List.map_nil, List.mem_singleton] at hb
      subst hb
      exact hc.2 ha
    case isFalse => exact ih queue h

theorem enqueueLinks_map_snd (visited : List String) (d1 : Nat)
    (links : List String) (queue : List (String × Nat)) :
    ∃ m, (enqueueLinks visited d1 queue links).map Prod.snd =
      queue.map Prod.snd ++ List.replicate m d1 := by
  induction links generalizing queue with
  | nil => exact ⟨0, by simp [enqueueLinks]⟩
  | cons l ls ih =>
    rw [enqueueLinks]
    split
    case isTrue =>
      obtain ⟨m, hm⟩ := ih (queue ++ [(l, d1)])
      refine ⟨m + 1, ?_⟩
      rw [hm]
      simp [List.replicate_succ, List.append_assoc]
    case isFalse => exact ih queue

theorem crawlStep_frontier_snd (oracle : CrawlOracle) (domain : String)
    (max_depth : Nat) (s : CrawlState) (url : String) (d : Nat)
    (rest : List (String × Nat)) (h : s.frontier = (url, d) :: rest) :
    ∃ m, ((crawlStep oracle domain max_depth s).frontier).map Prod.snd =
      rest.map Prod.snd ++ List.replicate m (d + 1) := by
  simp only [crawlStep, h]
  split_ifs <;> first
    | exact enqueueLinks_map_snd _ _ _ _
    | exact ⟨0, by simp⟩

theorem nodupSnoc {α : Type} (l : List α) (x : α) (hv : l.Nodup) (hx : x ∉ l) :
    (l ++ [x]).Nodup := by
  rw [List.nodup_append]
  refine ⟨hv, List.nodup_singleton x, ?_⟩
  intro a ha hb
  simp only [List.mem_singleton] at hb
  subst hb
  exact hx ha

theorem crawlStep_stateOK (oracle : CrawlOracle) (domain : String)
    (max_depth : Nat) (s : CrawlState) (h : StateOK s) :
    StateOK (crawlStep oracle domain max_depth s) := by
  obtain ⟨hv, hfst, hdisj⟩ := h
  rcases hfr : s.frontier with _ | ⟨⟨url, d⟩, rest⟩
  · simp only [crawlStep, hfr]
    exact ⟨hv, by rw [hfr] at hfst ⊢; exact hfst, by rw [hfr] at hdisj ⊢; exact hdisj⟩
  · have hrest : (rest.map Prod.fst).Nodup := by
      rw [hfr, List.map_cons, List.nodup_cons] at hfst
      exact hfst.2
    have hurl : url ∉ rest.map Prod.fst := by
      rw [hfr, List.map_cons, List.nodup_cons] at hfst
      exact hfst.1
    have hdrest : ∀ e ∈ rest, e.1 ∉ s.visited := fun e he =>
      hdisj e (by rw [hfr]; exact List.mem_cons_of_mem _ he)
    have hner : ∀ e ∈ rest, e.1 ≠ url := by
      intro e he heq
      exact hurl (heq ▸ List.mem_map_of_mem Prod.fst he)
    have hmemv : ∀ e ∈ rest, e.1 ∉ s.visited ++ [url] := by
      intro e he
      simp only [List.mem_append, List.mem_singleton]
      rintro (hm | hm)
      · exact hdrest e he hm
      · exact hner e he hm
    simp only [crawlStep, hfr]
    split_ifs with h1 h2 h3 h4 h5
    · exact ⟨hv, hrest, fun e he => hdrest e he⟩
    · exact ⟨hv, hrest, fun e he => hdrest e he⟩
    · have hnv : url ∉ s.visited := fun hm => h1 (Or.inl hm)
      refine ⟨nodupSnoc _ _ hv hnv, enqueueLinks_nodup _ _ _ _ hrest, ?_⟩
      intro e he
      rcases enqueueLinks_mem _ _ _ _ e he with hq | hq
      · exact hmemv e hq
      · exact hq.2
    · have hnv : url ∉ s.visited := fun hm => h1 (Or.inl hm)
      refine ⟨nodupSnoc _ _ hv hnv, enqueueLinks_nodup _ _ _ _ hrest, ?_⟩
      intro e he
      rcases enqueueLinks_mem _ _ _ _ e he with hq | hq
      · exact hmemv e hq
      · exact hq.2
    · have hnv : url ∉ s.visited := fun hm => h1 (Or.inl hm)
      exact ⟨nodupSnoc _ _ hv hnv, hrest, hmemv⟩
    · have hnv : url ∉ s.visited := fun hm => h1 (Or.inl hm)
      exact ⟨nodupSnoc _ _ hv hnv, hrest, hmemv⟩
    · have hnv : url ∉ s.visited := fun hm => h1 (Or.inl hm)
      exact ⟨nodupSnoc _ _ hv hnv, hrest, hmemv⟩

theorem crawlStep_depthOK (oracle : CrawlOracle) (domain : String)
    (max_depth : Nat) (s : CrawlState) (h : DepthOK max_depth s) :
    DepthOK max_depth (crawlStep oracle domain max_depth s) := by
  rcases hfr : s.frontier with _ | ⟨⟨url, d⟩, rest⟩
  · simp only [crawlStep, hfr]
    exact h
  · have hrest : ∀ e ∈ rest, e.2 ≤ max_depth := fun e he =>
      h e (by rw [hfr]; exact List.mem_cons_of_mem _ he)
    simp only [crawlStep, hfr]
    split_ifs with h1 h2 h3 h4 h5
    · exact fun e he => hrest e he
    · exact fun e he => hrest e he
    · intro e he
      rcases enqueueLinks_mem _ _ _ _ e he with hq | hq
      · exact hrest e hq
      · omega
    · intro e he
      rcases enqueueLinks_mem _ _ _ _ e he with hq | hq
      · exact hrest e hq
      · omega
    · exact fun e he => hrest e he
    · exact fun e he => hrest e he
    · exact fun e he => hrest e he

theorem chainReplicate (m c : Nat) :
    List.Chain' (· ≤ ·) (List.replicate m c) := by
  induction m with
  | zero => simp
  | succ n ih =>
    rw [List.replicate_succ, List.chain'_cons']
    refine ⟨?_, ih⟩
    intro y hy
    cases n with
    | zero => simp at hy
    | succ k =>
      rw [List.replicate_succ] at hy
      simp only [List.head?_cons, Option.mem_def, Option.some.injEq] at hy
      omega

theorem spreadOK_tail_append (d : Nat) (ds : List Nat) (m : Nat)
    (h : SpreadOK (d :: ds)) :
    SpreadOK (ds ++ List.replicate m (d + 1)) := by
  obtain ⟨hchain, hbd⟩ := h
  rcases ds with _ | ⟨r0, rs⟩
  · rcases m with _ | m'
    · simp [SpreadOK]
    · rw [List.nil_append, List.replicate_succ]
      refine ⟨?_, ?_⟩
      · rw [← List.replicate_succ]
        exact chainReplicate _ _
      · intro x hx
        have := List.eq_of_mem_replicate hx
        omega
  · have hdr0 : d ≤ r0 := (List.chain'_cons'.mp hchain).1 r0 rfl
    have hchain' : List.Chain' (· ≤ ·) (r0 :: rs) := (List.chain'_cons'.mp hchain).2
    rw [List.cons_append]
    refine ⟨?_, ?_⟩
    · rw [← List.cons_append]
      rw [List.chain'_append]
      refine ⟨hchain', chainReplicate _ _, ?_⟩
      intro x hx y hy
      have hxm : x ∈ r0 :: rs := List.mem_of_mem_getLast? hx
      have hxle : x ≤ d + 1 := hbd x hxm
      rcases m with _ | m'
      · simp at hy
      · rw [List.replicate_succ] at hy
        simp only [List.head?_cons, Option.mem_def, Option.some.injEq] at hy
        omega
    · intro x hx
      rcases List.mem_append.mp hx with hm | hm
      · have : x ≤ d + 1 := hbd x (List.mem_cons_of_mem _ hm)
        omega
      · have := List.eq_of_mem_replicate hm
        omega

theorem crawlStep_spread (oracle : CrawlOracle) (domain : String)
    (max_depth : Nat) (s : CrawlState)
    (h : SpreadOK (s.frontier.map Prod.snd)) :
    SpreadOK ((crawlStep oracle domain max_depth s).frontier.map Prod.snd) := by
  rcases hfr : s.frontier with _ | ⟨⟨url, d⟩, rest⟩
  · simp only [crawlStep, hfr]
    simp [SpreadOK]
  · obtain ⟨m, hm⟩ := crawlStep_frontier_snd oracle domain max_depth s url d rest hfr
    rw [hm]
    apply spreadOK_tail_append
    rw [hfr] at h
    simpa using h

theorem crawlStep_head_ge (oracle : CrawlOracle) (domain : String)
    (max_depth : Nat) (s : CrawlState) (url : String) (d : Nat)
    (rest : List (String × Nat)) (hfr : s.frontier = (url, d) :: rest)
    (h : SpreadOK (s.frontier.map Prod.snd)) :
    ∀ q ∈ ((crawlStep oracle domain max_depth s).frontier.map Prod.snd).head?,
      d ≤ q := by
  obtain ⟨m, hm⟩ := crawlStep_frontier_snd oracle domain max_depth s url d rest hfr
  rw [hm]
  rw [hfr] at h
  simp only [List.map_cons] at h
  obtain ⟨hchain, _⟩ := h
  intro q hq
  rcases hrest : rest.map Prod.snd with _ | ⟨r0, rs⟩
  · rw [hrest, List.nil_append] at hq
    rcases m with _ | m'
    · simp at hq
    · rw [List.replicate_succ] at hq
      simp only [List.head?_cons, Option.mem_def, Option.some.injEq] at hq
      omega
  · rw [hrest, List.cons_append] at hq
    simp only [List.head?_cons, Option.mem_def, Option.some.injEq] at hq
    have := (List.chain'_cons'.mp hchain).1 r0 (by rw [hrest]; rfl)
    omega

theorem crawlRun_stateOK (oracle : CrawlOracle) (domain : String)
    (max_depth max_pages : Nat) :
    ∀ (fuel : Nat) (s : CrawlState), StateOK s →
      StateOK (crawlRun oracle domain max_depth max_pages fuel s).1 := by
  intro fuel
  induction fuel with
  | zero => intro s hs; simpa [crawlRun] using hs
  | succ n ih =>
    intro s hs
    rcases hfr : s.frontier with _ | ⟨e, rest⟩
    · simpa [crawlRun, hfr] using hs
    · by_cases hb : s.pagesProcessed < max_pages
      · simp only [crawlRun, hfr, if_pos hb]
        exact ih _ (crawlStep_stateOK _ _ _ _ hs)
      · simpa [crawlRun, hfr, hb] using hs

theorem crawlRun_depthOK (oracle : CrawlOracle) (domain : String)
    (max_depth max_pages : Nat) :
    ∀ (fuel : Nat) (s : CrawlState), DepthOK max_depth s →
      DepthOK max_depth (crawlRun oracle domain max_depth max_pages fuel s).1 ∧
      ∀ e ∈ (crawlRun oracle domain max_depth max_pages fuel s).2,
        e.2 ≤ max_depth := by
  intro fuel
  induction fuel with
  | zero => intro s hs; exact ⟨by simpa [crawlRun] using hs, by simp [crawlRun]⟩
  | succ n ih =>
    intro s hs
    rcases hfr : s.frontier with _ | ⟨e, rest⟩
    · exact ⟨by simpa [crawlRun, hfr] using hs, by simp [crawlRun, hfr]⟩
    · by_cases hb : s.pagesProcessed < max_pages
      · simp only [crawlRun, hfr, if_pos hb]
        obtain ⟨ih1, ih2⟩ := ih _ (crawlStep_depthOK oracle domain max_depth s hs)
        refine ⟨ih1, ?_⟩
        intro x hx
        rcases List.mem_cons.mp hx with hx | hx
        · rw [hx]
          exact hs e (by rw [hfr]; exact List.mem_cons_self _ _)
        · exact ih2 x hx
      · exact ⟨by simpa [crawlRun, hfr, hb] using hs, by simp [crawlRun, hfr, hb]⟩

theorem crawlRun_mono (oracle : CrawlOracle) (domain : String)
    (max_depth max_pages : Nat) :
    ∀ (fuel : Nat) (s : CrawlState), SpreadOK (s.frontier.map Prod.snd) →
      List.Chain' (· ≤ ·)
        ((crawlRun oracle domain max_depth max_pages fuel s).2.map Prod.snd) ∧
      (((crawlRun oracle domain max_depth max_pages fuel s).2.map Prod.snd).head? = none ∨
        ((crawlRun oracle domain max_depth max_pages fuel s).2.map Prod.snd).head? =
          (s.frontier.map Prod.snd).head?) := by
  intro fuel
  induction fuel with
  | zero => intro s _; simp [crawlRun]
  | succ n ih =>
    intro s hs
    rcases hfr : s.frontier with _ | ⟨⟨url, d⟩, rest⟩
    · simp [crawlRun, hfr]
    · by_cases hb : s.pagesProcessed < max_pages
      · simp only [crawlRun, hfr, if_pos hb]
        have hs' : SpreadOK ((crawlStep oracle domain max_depth s).frontier.map Prod.snd) :=
          crawlStep_spread _ _ _ _ hs
        obtain ⟨ihc, ihh⟩ := ih (crawlStep oracle domain max_depth s) hs'
        constructor
        · rw [List.map_cons, List.chain'_cons']
          refine ⟨?_, ihc⟩
          intro y hy
          rcases ihh with hnone | hh
          · rw [hnone] at hy
            simp at hy
          · rw [hh] at hy
            exact crawlStep_head_ge oracle domain max_depth s url d rest hfr hs y hy
        · right
          simp
      · simp [crawlRun, hfr, hb]

/-! Theorems settling the specification claims. -/

/-- C1, counterexample: with every attempt timing out, the PDF dispatcher
makes exactly 3 attempts but sleeps only between consecutive attempts, for
delays of 1 then 2 time units; the claimed inter-attempt delay sequence
1, 2, 4 is not produced. -/
theorem claimC1_counterexample :
    (download_and_process_pdf "https://x.gov/a.pdf" (fun _ => .timeout)
      (fun _ => .ok []) "2024-01-01 00:00:00").delays = [1, 2] ∧
    (download_and_process_pdf "https://x.gov/a.pdf" (fun _ => .timeout)
      (fun _ => .ok []) "2024-01-01 00:00:00").attemptsMade = 3 ∧
    ([1, 2] : List Nat) ≠ [1, 2, 4] :=
  ⟨rfl, rfl, by decide⟩

/-- C1, amended: for a PDF fetch in which every attempt raises a timeout,
the dispatcher makes exactly 3 attempts, sleeping 2 ^ attempt time units
after each failed non-final attempt — inter-attempt delays 1 and 2 — and
then produces a terminal Failed result whose error text contains
"Timeout". -/
theorem claimC1 (url now : String) (extract : List Nat → Except String PdfPages) :
    (download_and_process_pdf url (fun _ => .timeout) extract now).attemptsMade = 3 ∧
    (download_and_process_pdf url (fun _ => .timeout) extract now).delays = [1, 2] ∧
    (download_and_process_pdf url (fun _ => .timeout) extract now).result.status = "FAILED" ∧
    strContains
      ((download_and_process_pdf url (fun _ => .timeout) extract now).result.error.getD "")
      "Timeout" = true :=
  ⟨rfl, rfl, rfl, rfl⟩

/-- C2, counterexample: a response whose content type does not indicate a
PDF is not failed when the URL itself ends in ".pdf": extraction proceeds
and the run yields a SUCCESS result. -/
theorem claimC2_counterexample :
    strContains (strToLower "text/html") "pdf" = false ∧
    (download_and_process_pdf "https://x.gov/a.pdf" (fun _ => .ok "text/html" [37])
      (fun _ => .ok [some "hello"]) "2024-01-01 00:00:00").result.status = "SUCCESS" :=
  ⟨by rfl, by rfl⟩

/-- C2, amended: a PDF download whose response content type does not
indicate a PDF is a terminal Failed with error "Not a valid PDF document"
only when, in addition, the URL does not end in ".pdf"; in that case no
extraction outcome influences the result. -/
theorem claimC2 (url ct now : String) (body : List Nat)
    (extract : List Nat → Except String PdfPages)
    (h1 : strContains (strToLower ct) "pdf" = false)
    (h2 : strEndsWith (strToLower url) ".pdf" = false) :
    (download_and_process_pdf url (fun _ => .ok ct body) extract now).result =
      failedPdf url "Not a valid PDF document" := by
  simp [download_and_process_pdf, pdfFetchGo, h1, h2]

/-- C2, witness for the amended theorem at a concrete input. -/
theorem claimC2_witness :
    strContains (strToLower "text/html") "pdf" = false ∧
    strEndsWith (strToLower "https://x.gov/doc") ".pdf" = false ∧
    (download_and_process_pdf "https://x.gov/doc" (fun _ => .ok "text/html" [37])
      (fun _ => .ok [some "hello"]) "now").result =
      failedPdf "https://x.gov/doc" "Not a valid PDF document" :=
  ⟨by rfl, by rfl, claimC2 "https://x.gov/doc" "text/html" "now" [37] _ (by rfl) (by rfl)⟩

/-- C8: the content classifier on "license fee $500 due annually, rate of
3.5%" returns relevance true, and the matched-pattern list contains the
dollar-amount match "$500" and the percentage match "3.5%" (each regex here
contributing a single match, within the cap of 3 per regex). -/
theorem claimC8 :
    contains_financial_data "license fee $500 due annually, rate of 3.5%" =
      (true, ["3.5%", "rate of 3", "$500", "license fee $500"]) ∧
    "$500" ∈ (contains_financial_data "license fee $500 due annually, rate of 3.5%").2 ∧
    "3.5%" ∈ (contains_financial_data "license fee $500 due annually, rate of 3.5%").2 := by
  have h : contains_financial_data "license fee $500 due annually, rate of 3.5%" =
      (true, ["3.5%", "rate of 3", "$500", "license fee $500"]) := by rfl
  refine ⟨h, ?_, ?_⟩ <;> rw [h] <;> simp

/-- C9: a PDF download that succeeds (content-type check passed) but whose
text extraction raises yields a SUCCESS result of kind PDF whose content is
the error note carrying the file metadata; it is never a Failed result. -/
theorem claimC9 (url ct now msg : String) (body : List Nat)
    (h : strContains (strToLower ct) "pdf" = true ∨ strEndsWith (strToLower url) ".pdf" = true) :
    (download_and_process_pdf url (fun _ => .ok ct body)
      (fun _ => .error msg) now).result.status = "SUCCESS" ∧
    (download_and_process_pdf url (fun _ => .ok ct body)
      (fun _ => .error msg) now).result.type = "PDF" ∧
    (download_and_process_pdf url (fun _ => .ok ct body)
      (fun _ => .error msg) now).result.content = pdfErrorNote url body.length msg now ∧
    (download_and_process_pdf url (fun _ => .ok ct body)
      (fun _ => .error msg) now).result.status ≠ "FAILED" := by
  rcases h with h | h <;>
    simp [download_and_process_pdf, pdfFetchGo, h]

/-- C9, witness at a concrete input. -/
theorem claimC9_witness :
    strContains (strToLower "application/pdf") "pdf" = true ∧
    ((download_and_process_pdf "https://x.gov/a.pdf"
        (fun _ => .ok "application/pdf" [1, 2])
        (fun _ => .error "bad xref") "now").result.status = "SUCCESS" ∧
      (download_and_process_pdf "https://x.gov/a.pdf"
        (fun _ => .ok "application/pdf" [1, 2])
        (fun _ => .error "bad xref") "now").result.type = "PDF" ∧
      (download_and_process_pdf "https://x.gov/a.pdf"
        (fun _ => .ok "application/pdf" [1, 2])
        (fun _ => .error "bad xref") "now").result.content =
        pdfErrorNote "https://x.gov/a.pdf" 2 "bad xref" "now" ∧
      (download_and_process_pdf "https://x.gov/a.pdf"
        (fun _ => .ok "application/pdf" [1, 2])
        (fun _ => .error "bad xref") "now").result.status ≠ "FAILED") :=
  ⟨by rfl, claimC9 "https://x.gov/a.pdf" "application/pdf" "now" "bad xref" [1, 2]
    (.inl (by rfl))⟩

/-- C3, counterexample: the already-absolute link "https://evil.com/x.gov"
does not share the crawl domain "x.gov" as its host, yet the extractor keeps
it, because the source tests raw substring containment of the domain. -/
theorem claimC3_counterexample :
    strStartsWith "https://evil.com/x.gov" "http" = true ∧
    urlHost "https://evil.com/x.gov" ≠ "x.gov" ∧
    extract_links "x.gov" [] [⟨"https://evil.com/x.gov", ""⟩] =
      ["https://evil.com/x.gov"] := by
  refine ⟨by decide, by decide, by decide⟩

/-- C3, amended: an already-absolute link is kept only if the crawl domain
occurs as a substring of the link (not host equality); every absolute link
in which the domain does not occur is dropped and never enqueued. -/
theorem claimC3 (domain : String) (visited : List String) (link text : String)
    (h0 : strStartsWith link "/" = false)
    (h1 : strStartsWith link "http" = true)
    (h2 : strContains link domain = false) :
    extract_links domain visited [⟨link, text⟩] = [] := by
  have hne : ¬ link = "" := fun h => absurd (h ▸ h1) (by decide)
  simp [extract_links, categorizeLinks, resolveLink, h0, h1, h2, hne, dedupeGo]

/-- C3, witness for the amended theorem at a concrete input. -/
theorem claimC3_witness :
    strStartsWith "http://other.org/page" "/" = false ∧
    strStartsWith "http://other.org/page" "http" = true ∧
    strContains "http://other.org/page" "x.gov" = false ∧
    extract_links "x.gov" [] [⟨"http://other.org/page", "fees"⟩] = [] :=
  ⟨by decide, by decide, by decide,
    claimC3 "x.gov" [] "http://other.org/page" "fees" (by decide) (by decide)
      (by decide)⟩

/-- C4: when the candidate links of a page categorize into 2 document
links, 3 financial links and 20 other links, pairwise distinct, the
prioritizer output is exactly the documents, then the financial links, then
the first 5 other links — 10 links in total with no duplicates removed
beyond that order-preserving selection. -/
theorem claimC4 (domain : String) (visited : List String) (links : List LinkData)
    (d f o : List String)
    (hcat : categorizeLinks domain visited links = (d, f, o))
    (hd : d.length = 2) (hf : f.length = 3) (ho : o.length = 20)
    (hnd : (d ++ f ++ o.take max_other_links).Nodup) :
    extract_links domain visited links = d ++ f ++ o.take max_other_links ∧
    (extract_links domain visited links).length = 10 := by
  have heq : extract_links domain visited links =
      d ++ f ++ o.take max_other_links := by
    simp only [extract_links, hcat]
    simpa using dedupeGo_eq (d ++ f ++ o.take max_other_links) [] (by simpa using hnd)
  refine ⟨heq, ?_⟩
  rw [heq]
  simp only [List.length_append, List.length_take, hd, hf, ho, max_other_links]
  omega

/-- C4, witness at a concrete page with 2 + 3 + 20 distinct links. -/
theorem claimC4_witness :
    categorizeLinks "x.gov" [] tierLinks = (tierDocs, tierFins, tierOthers) ∧
    tierDocs.length = 2 ∧ tierFins.length = 3 ∧ tierOthers.length = 20 ∧
    (tierDocs ++ tierFins ++ tierOthers.take max_other_links).Nodup ∧
    extract_links "x.gov" [] tierLinks =
      tierDocs ++ tierFins ++ tierOthers.take max_other_links :=
  ⟨by decide, by decide, by decide, by decide, by decide,
    (claimC4 "x.gov" [] tierLinks tierDocs tierFins tierOthers (by decide)
      (by decide) (by decide) (by decide) (by decide)).1⟩

/-- C5: in every run each URL is fetched at most once — the visited list of
every reachable crawl state has no duplicates, the frontier never holds two
entries with the same URL, the frontier never holds a URL that is already
visited, and a dequeued entry whose URL is visited is discarded with no
other state change (no fetch, no counter increment). -/
theorem claimC5 (oracle : CrawlOracle) (domain start_url : String)
    (max_depth max_pages fuel : Nat) :
    (crawlRun oracle domain max_depth max_pages fuel (initState start_url)).1.visited.Nodup ∧
    ((crawlRun oracle domain max_depth max_pages fuel
      (initState start_url)).1.frontier.map Prod.fst).Nodup ∧
    (∀ e ∈ (crawlRun oracle domain max_depth max_pages fuel (initState start_url)).1.frontier,
      e.1 ∉ (crawlRun oracle domain max_depth max_pages fuel (initState start_url)).1.visited) ∧
    (∀ s : CrawlState, ∀ url : String, ∀ d : Nat, ∀ rest : List (String × Nat),
      s.frontier = (url, d) :: rest → url ∈ s.visited →
      crawlStep oracle domain max_depth s = { s with frontier := rest }) := by
  have hinit : StateOK (initState start_url) :=
    ⟨List.nodup_nil, by simp [initState], by simp [initState]⟩
  obtain ⟨h1, h2, h3⟩ :=
    crawlRun_stateOK oracle domain max_depth max_pages fuel _ hinit
  refine ⟨h1, h2, h3, ?_⟩
  intro s url d rest hfr hvis
  simp only [crawlStep, hfr]
  rw [if_pos (Or.inl hvis)]

/-- C5, witness: the de-duplication facts at a concrete oracle and run, and
the discard of an already-visited dequeued URL at a concrete state. -/
theorem claimC5_witness :
    (crawlRun testOracle "x.gov" 3 50 6 (initState "https://x.gov/start")).1.visited.Nodup ∧
    crawlStep testOracle "x.gov" 3
      { frontier := [("https://x.gov/start", 1)], visited := ["https://x.gov/start"],
        pagesProcessed := 1, financialPages := [], failedPages := [],
        skippedPages := [] } =
      { frontier := [], visited := ["https://x.gov/start"], pagesProcessed := 1,
        financialPages := [], failedPages := [], skippedPages := [] } := by
  have h := claimC5 testOracle "x.gov" "https://x.gov/start" 3 50 6
  exact ⟨h.1, h.2.2.2 _ "https://x.gov/start" 1 [] rfl (by simp)⟩

/-- C6: no frontier entry with depth exceeding max_depth is ever dequeued
(hence never fetched) in a run from the initial state; a dequeued entry
whose depth exceeds max_depth is silently discarded with no other state
change (in particular pagesProcessed is not incremented); and no links are
enqueued from an entry unless its depth is strictly below max_depth. -/
theorem claimC6 (oracle : CrawlOracle) (domain start_url : String)
    (max_depth max_pages fuel : Nat) :
    (∀ e ∈ (crawlRun oracle domain max_depth max_pages fuel (initState start_url)).2,
      e.2 ≤ max_depth) ∧
    (∀ e ∈ (crawlRun oracle domain max_depth max_pages fuel (initState start_url)).1.frontier,
      e.2 ≤ max_depth) ∧
    (∀ s : CrawlState, ∀ url : String, ∀ d : Nat, ∀ rest : List (String × Nat),
      s.frontier = (url, d) :: rest → max_depth < d →
      crawlStep oracle domain max_depth s = { s with frontier := rest }) ∧
    (∀ s : CrawlState, ∀ url : String, ∀ d : Nat, ∀ rest : List (String × Nat),
      s.frontier = (url, d) :: rest → ¬ d < max_depth →
      (crawlStep oracle domain max_depth s).frontier = rest) := by
  have hinit : DepthOK max_depth (initState start_url) := by
    intro e he
    simp only [initState, List.mem_singleton] at he
    rw [he]
    exact Nat.zero_le _
  obtain ⟨hs, ht⟩ :=
    crawlRun_depthOK oracle domain max_depth max_pages fuel _ hinit
  refine ⟨ht, hs, ?_, ?_⟩
  · intro s url d rest hfr hd
    simp only [crawlStep, hfr]
    rw [if_pos (Or.inr hd)]
  · intro s url d rest hfr hd
    simp only [crawlStep, hfr]
    split_ifs <;> rfl

/-- C6, witness: the depth bound on a concrete run, and the silent discard
of a too-deep entry at a concrete state. -/
theorem claimC6_witness :
    (∀ e ∈ (crawlRun testOracle "x.gov" 3 50 6 (initState "https://x.gov/start")).2,
      e.2 ≤ 3) ∧
    crawlStep testOracle "x.gov" 3
      { frontier := [("https://x.gov/deep", 4)], visited := [], pagesProcessed := 0,
        financialPages := [], failedPages := [], skippedPages := [] } =
      { frontier := [], visited := [], pagesProcessed := 0, financialPages := [],
        failedPages := [], skippedPages := [] } := by
  have h := claimC6 testOracle "x.gov" "https://x.gov/start" 3 50 6
  exact ⟨h.1, h.2.2.1 _ "https://x.gov/deep" 4 [] rfl (by omega)⟩

/-- C7: the depths of the dequeued frontier entries of a run form a
non-decreasing sequence (breadth-first order), and every crawl step appends
its new links at the tail of the FIFO frontier, all carrying depth one
greater than the entry being processed. -/
theorem claimC7 (oracle : CrawlOracle) (domain start_url : String)
    (max_depth max_pages fuel : Nat) :
    List.Chain' (· ≤ ·)
      ((crawlRun oracle domain max_depth max_pages fuel (initState start_url)).2.map
        Prod.snd) ∧
    (∀ s : CrawlState, ∀ url : String, ∀ d : Nat, ∀ rest : List (String × Nat),
      s.frontier = (url, d) :: rest →
      ∃ m, ((crawlStep oracle domain max_depth s).frontier).map Prod.snd =
        rest.map Prod.snd ++ List.replicate m (d + 1)) := by
  have hinit : SpreadOK ((initState start_url).frontier.map Prod.snd) := by
    simp [initState, SpreadOK]
  refine ⟨(crawlRun_mono oracle domain max_depth max_pages fuel _ hinit).1, ?_⟩
  intro s url d rest hfr
  exact crawlStep_frontier_snd oracle domain max_depth s url d rest hfr

/-- C7, witness: the BFS depth order on a concrete run, and the tail-append
shape of a concrete step. -/
theorem claimC7_witness :
    List.Chain' (· ≤ ·)
      ((crawlRun testOracle "x.gov" 3 50 6 (initState "https://x.gov/start")).2.map
        Prod.snd) ∧
    ∃ m, ((crawlStep testOracle "x.gov" 3
      { frontier := [("https://x.gov/start", 0)], visited := [], pagesProcessed := 0,
        financialPages := [], failedPages := [], skippedPages := [] }).frontier).map
        Prod.snd =
      ([] : List (String × Nat)).map Prod.snd ++ List.replicate m (0 + 1) := by
  have h := claimC7 testOracle "x.gov" "https://x.gov/start" 3 50 6
  exact ⟨h.1, h.2 _ "https://x.gov/start" 0 [] rfl⟩

/-- C10: a successfully fetched, financially relevant page whose file write
fails (the persister returns none) is appended to no result list — the
financial, failed and skipped lists are unchanged — while it is still added
to the visited list and counted against the page budget. -/
theorem claimC10 (oracle : CrawlOracle) (domain : String) (max_depth : Nat)
    (s : CrawlState) (url : String) (d : Nat) (rest : List (String × Nat))
    (pats : List String)
    (hfr : s.frontier = (url, d) :: rest)
    (hnv : url ∉ s.visited) (hd : d ≤ max_depth)
    (hng : is_generic_page url = false)
    (hst : (oracle.scrape url).status = "SUCCESS")
    (hcls : contains_financial_data (oracle.scrape url).content = (true, pats))
    (hsave : oracle.save url = none) :
    (crawlStep oracle domain max_depth s).financialPages = s.financialPages ∧
    (crawlStep oracle domain max_depth s).failedPages = s.failedPages ∧
    (crawlStep oracle domain max_depth s).skippedPages = s.skippedPages ∧
    (crawlStep oracle domain max_depth s).visited = s.visited ++ [url] ∧
    (crawlStep oracle domain max_depth s).pagesProcessed = s.pagesProcessed + 1 := by
  have hguard : ¬(url ∈ s.visited ∨ d > max_depth) := by
    push_neg
    exact ⟨hnv, by omega⟩
  simp only [crawlStep, hfr]
  rw [if_neg hguard, if_neg (by simp [hng]), if_pos hst]
  simp [hcls, hsave]

/-- C10, witness: a concrete relevant page whose save fails lands in no
result list while visited and the page counter advance. -/
theorem claimC10_witness :
    contains_financial_data (saveFailOracle.scrape "https://x.gov/page1").content =
      (true, ["$10", "fee of $10"]) ∧
    ((crawlStep saveFailOracle "x.gov" 3
      { frontier := [("https://x.gov/page1", 0)], visited := [], pagesProcessed := 0,
        financialPages := [], failedPages := [], skippedPages := [] }).financialPages = [] ∧
      (crawlStep saveFailOracle "x.gov" 3
        { frontier := [("https://x.gov/page1", 0)], visited := [], pagesProcessed := 0,
          financialPages := [], failedPages := [], skippedPages := [] }).failedPages = [] ∧
      (crawlStep saveFailOracle "x.gov" 3
        { frontier := [("https://x.gov/page1", 0)], visited := [], pagesProcessed := 0,
          financialPages := [], failedPages := [], skippedPages := [] }).skippedPages = [] ∧
      (crawlStep saveFailOracle "x.gov" 3
        { frontier := [("https://x.gov/page1", 0)], visited := [], pagesProcessed := 0,
          financialPages := [], failedPages := [], skippedPages := [] }).visited =
        [] ++ ["https://x.gov/page1"] ∧
      (crawlStep saveFailOracle "x.gov" 3
        { frontier := [("https://x.gov/page1", 0)], visited := [], pagesProcessed := 0,
          financialPages := [], failedPages := [], skippedPages := [] }).pagesProcessed =
        0 + 1) := by
  refine ⟨by decide, ?_⟩
  exact claimC10 saveFailOracle "x.gov" 3 _ "https://x.gov/page1" 0 [] ["$10", "fee of $10"]
    rfl (by simp) (by omega) (by decide) rfl (by decide) rfl

end SUT
